import Mathlib

/-!
# Algebraic simplification pass of ngraph

A shallow embedding of `src/ngraph/pass/algebraic_simplification.cpp`:
the constant canonicalisation, the two rewrite rules, the rule registry and
the sweep `run_on_function`.  The graph library the pass is written against
(nodes, the pattern matcher, `replace_node`, `is_zero`, `is_one`,
`make_zero`, `Constant::create`, `get_ordered_ops`) lives in other files of
the repository; each of those pieces is modelled from the specification and
marked as such.  The order checker `validate_list` of
`test/topological_sort.cpp` is embedded from its source, the topological
sort it checks is modelled from the specification.
-/

namespace ngraph

/-! ## Data model -/

/-- Modelled from the spec: the element type of a node output (the `element`
namespace is not among the sources). -/
inductive ElementType where
  | boolean
  | f32
  | f64
  | i32
  | i64
  deriving DecidableEq, Repr

/-- Modelled from the spec: a shape is the list of its dimensions; the rank
is its length, so a zero-rank (scalar) shape is `[]`. -/
abbrev Shape := List Nat

/-- Node identity.  Two references denote the same node exactly when their
identities are equal (the `shared_ptr` comparison of the source). -/
abbrev NodeId := Nat

/-- Modelled from the spec: the operator kind (the run-time type of a node,
the key `TI(node)` of the rule registry).  `Label` and `Any` are the two
placeholder kinds of the pattern language, which are nodes as well. -/
inductive OpKind where
  | Parameter
  | Result
  | Constant
  | Broadcast
  | Add
  | Multiply
  | Dot
  | Label
  | Any
  | Other (tag : Nat)
  deriving DecidableEq, Repr

/-- Modelled from the spec: a graph vertex with its identity, operator kind,
output element type and shape and ordered operand references.  `data` holds
the elements of a constant (exact values; the integers stand for the
literals `0.0`, `1.0`, `2.0`, ... of the element type) and is empty for any
other kind; `is_output` is what `n->is_output()` answers. -/
structure Node where
  id : NodeId
  kind : OpKind
  element_type : ElementType
  shape : Shape
  arguments : List NodeId
  data : List Int
  is_output : Bool
  deriving DecidableEq, Repr

/-- The test `n->is_parameter()`. -/
def Node.is_parameter (n : Node) : Bool :=
  n.kind == OpKind.Parameter

/-- Live nodes are kept in an arena; a reference is resolved by identity. -/
def get_node (g : List Node) (i : NodeId) : Option Node :=
  g.find? (fun n => n.id == i)

/-- An identity that no node of the arena carries: nodes allocated by a rule
take their identities from here on. -/
def fresh_id (g : List Node) : NodeId :=
  (g.map (fun n => n.id)).foldr max 0 + 1

/-- Modelled from the spec: `op::Constant::create(type, shape, values)`, a
new constant node (its identity is supplied by the caller). -/
def Constant.create (i : NodeId) (et : ElementType) (shape : Shape) (values : List Int) : Node :=
  { id := i, kind := OpKind.Constant, element_type := et, shape := shape,
    arguments := [], data := values, is_output := false }

/-- Modelled from the spec: `ngraph::make_zero(type, shape)`, a constant of
the given type and shape filled with zeros. -/
def make_zero (i : NodeId) (et : ElementType) (shape : Shape) : Node :=
  Constant.create i et shape (List.replicate shape.prod 0)

/-- Modelled from the spec: `ngraph::is_zero`, exact comparison of every
element of a constant with 0; a node that is not a constant is not zero. -/
def is_zero (n : Node) : Bool :=
  n.kind == OpKind.Constant && n.data.all (fun v => v == 0)

/-- Modelled from the spec: `ngraph::is_one`, exact comparison of every
element of a constant with 1; a node that is not a constant is not one. -/
def is_one (n : Node) : Bool :=
  n.kind == OpKind.Constant && n.data.all (fun v => v == 1)

/-! ## Pattern matcher -/

/-- Modelled from the spec: a pattern tree.  `op` is a concrete
operator-kind template, `label` a Label placeholder (it is a node of its
own, `node`, and may wrap a sub-pattern the bound node has to match too),
`any` a predicate-guarded, structurally transparent placeholder around an
inner pattern. -/
inductive Pattern where
  | op (kind : OpKind) (args : List Pattern)
  | label (node : Node) (wrapped : List Pattern)
  | any (pred : Node → Bool) (arg : Pattern)

/-- The binding from Label placeholders (by identity) to real nodes. -/
abbrev PatternMap := List (NodeId × NodeId)

mutual
/-- Modelled from the spec: `pattern::Matcher`, a single top-down descent
without backtracking.  A concrete pattern node requires equal operator kind
and equal arity and matches operand by operand; a Label binds on the first
encounter (after its wrapped sub-pattern, if any, has matched the same node)
and afterwards requires the identical node; an Any is structurally
transparent and evaluates its predicate on the examined node: when it holds
(for the rules here: the node is a Broadcast) the node is seen through and
the inner pattern is tried on each operand in turn, the first success
winning; otherwise the inner pattern is matched against the examined node
itself.  This is the reading under which the rules find, as they assume, the
constant below an optional Broadcast bound to `const_label`. -/
def match_node (g : List Node) : Pattern → NodeId → PatternMap → Option PatternMap
  | Pattern.op kind args, v, pm =>
    match get_node g v with
    | none => none
    | some nd => if nd.kind = kind then match_arguments g args nd.arguments pm else none
  | Pattern.label l wrapped, v, pm =>
    match pm.lookup l.id with
    | some b => if b = v then some pm else none
    | none => (match_wrapped g wrapped v pm).map (fun pm1 => (l.id, v) :: pm1)
  | Pattern.any pred arg, v, pm =>
    match get_node g v with
    | none => none
    | some nd =>
      if pred nd then nd.arguments.findSome? (fun a => match_node g arg a pm)
      else match_node g arg v pm
/-- Operand-by-operand matching; the arities have to agree. -/
def match_arguments (g : List Node) : List Pattern → List NodeId → PatternMap → Option PatternMap
  | [], [], pm => some pm
  | p :: ps, v :: vs, pm =>
    match match_node g p v pm with
    | none => none
    | some pm1 => match_arguments g ps vs pm1
  | [], _ :: _, _ => none
  | _ :: _, [], _ => none
/-- The sub-pattern a Label wraps (none: the Label matches unconditionally). -/
def match_wrapped (g : List Node) : List Pattern → NodeId → PatternMap → Option PatternMap
  | [], _, pm => some pm
  | p :: _, v, pm => match_node g p v pm
end

/-- The matcher bound to a pattern: `matcher->match(n)`, starting from an
empty pattern map. -/
def Matcher.run (g : List Node) (pattern : Pattern) (n : Node) : Option PatternMap :=
  match_node g pattern n.id []

/-- Modelled from the spec: the node a Label placeholder is, built as
`Label(node, predicate, wrapped)` builds it: element type and shape are
taken over from `node`, the operands are the wrapped nodes. -/
def Label.create (i : NodeId) (n : Node) (wrapped : List NodeId) : Node :=
  { id := i, kind := OpKind.Label, element_type := n.element_type, shape := n.shape,
    arguments := wrapped, data := [], is_output := false }

/-! ## Graph mutation -/

/-- The state a sweep works on: the live nodes, and two records kept for the
statements below, the calls of `replace_node` (target, replacement) and the
nodes a rule was invoked on, both in the order they happened. -/
structure State where
  nodes : List Node
  replacements : List (Node × Node)
  invoked : List Node
  deriving DecidableEq, Repr

/-- Rewiring of one consumer: every operand edge to `target` now points to
`replacement`. -/
def rewire (target replacement : NodeId) (u : Node) : Node :=
  { u with arguments := u.arguments.map (fun a => if a = target then replacement else a) }

/-- Modelled from the spec: `ngraph::replace_node(target, replacement)`
rewires every consumer edge that pointed to `target` so it points to
`replacement`; a replacement that is a new node joins the live nodes.  No
type or shape check is made. -/
def replace_node (s : State) (target replacement : Node) : State :=
  let rewired := s.nodes.map (rewire target.id replacement.id)
  { nodes := if (get_node rewired replacement.id).isSome then rewired else rewired ++ [replacement],
    replacements := s.replacements ++ [(target, replacement)],
    invoked := s.invoked }

/-! ## The pass (algebraic_simplification.cpp) -/

/-- Source lines 35-40: `cnst` itself when its shape has at least one
dimension, otherwise a new zero-rank constant of the same element type
holding `val`. -/
def canonicalize_constant (i : NodeId) (cnst : Node) (val : Int) : Node :=
  if cnst.shape.length > 0 then cnst
  else Constant.create i cnst.element_type [] [val]

/-- The predicate of the Any placeholder: the node is a Broadcast. -/
def bcst_pred (n : Node) : Bool :=
  n.kind == OpKind.Broadcast

/-- Source lines 42-53: the pattern `T(label, Any(const_label, bcst_pred))`
for the operator kind `T`. -/
def create_binary_matcher (T : OpKind) (label const_label : Pattern) : Pattern :=
  let bcst := Pattern.any bcst_pred const_label
  Pattern.op T [label, bcst]

/-- The placeholder `label` of a rule: `Label(iconst)`, allocated right
after `iconst`. -/
def rule_label (g : List Node) : Node :=
  Label.create (fresh_id g + 1) (make_zero (fresh_id g) ElementType.i32 []) []

/-- The placeholder `const_label` of a rule:
`Label(iconst, nullptr, NodeVector{iconst})`. -/
def rule_const_label (g : List Node) : Node :=
  Label.create (fresh_id g + 2) (make_zero (fresh_id g) ElementType.i32 []) [fresh_id g]

/-- The matcher a rule builds for the operator kind `T`; `iconst` is a
concrete Constant template without operands.  The Any node and the root of
the pattern take the two identities after `const_label`. -/
def rule_matcher (T : OpKind) (g : List Node) : Pattern :=
  create_binary_matcher T (Pattern.label (rule_label g) [])
    (Pattern.label (rule_const_label g) [Pattern.op OpKind.Constant []])

/-- The lookup `pattern_map[l]` resolved to the node it names. -/
def pattern_map_get (g : List Node) (pm : PatternMap) (l : Node) : Option Node :=
  (pm.lookup l.id).bind (get_node g)

/-- Source lines 55-83.  A pattern map without a binding for `const_label`
does not occur after a successful match (see `rule_match_binds`); that
branch answers false. -/
def simplify_multiply (s : State) (n : Node) : Bool × State :=
  let label := rule_label s.nodes
  let const_label := rule_const_label s.nodes
  let matcher := rule_matcher OpKind.Multiply s.nodes
  match Matcher.run s.nodes matcher n with
  | none => (false, s)
  | some pattern_map =>
    let _x := pattern_map_get s.nodes pattern_map label
    match pattern_map_get s.nodes pattern_map const_label with
    | none => (false, s)
    | some cnst =>
      let can_const := canonicalize_constant (fresh_id s.nodes + 5) cnst 0
      if is_zero can_const then (true, replace_node s n can_const)
      else
        let can_const := canonicalize_constant (fresh_id s.nodes + 6) cnst 1
        if is_one can_const then (true, replace_node s n label)
        else (false, s)

/-- Source lines 85-106.  The matcher is built for `op::Multiply`, as the
source builds it. -/
def simplify_add (s : State) (n : Node) : Bool × State :=
  let label := rule_label s.nodes
  let const_label := rule_const_label s.nodes
  let matcher := rule_matcher OpKind.Multiply s.nodes
  match Matcher.run s.nodes matcher n with
  | none => (false, s)
  | some pattern_map =>
    let _x := pattern_map_get s.nodes pattern_map label
    match pattern_map_get s.nodes pattern_map const_label with
    | none => (false, s)
    | some cnst =>
      let can_const := canonicalize_constant (fresh_id s.nodes + 5) cnst 0
      if is_zero can_const then (true, replace_node s n label)
      else (false, s)

/-- Source lines 108-117: the registry `ops_to_const_values`, keyed by the
operator kind. -/
def ops_to_const_values : OpKind → Option (State → Node → Bool × State)
  | OpKind.Add => some simplify_add
  | OpKind.Multiply => some simplify_multiply
  | _ => none

/-- Modelled from the spec: a function, its parameter list, its result list
and its nodes in the order `get_ordered_ops` yields them (the topological
sort is not among the sources; the order is taken as given). -/
structure Function where
  parameters : List NodeId
  results : List NodeId
  nodes : List Node
  deriving DecidableEq, Repr

/-- Modelled from the spec: `f->get_ordered_ops()`. -/
def Function.get_ordered_ops (f : Function) : List Node :=
  f.nodes

/-- The call `eh->second(n)`: the rule runs on `n`, and the call is noted. -/
def invoke (rule : State → Node → Bool × State) (s : State) (n : Node) : Bool × State :=
  rule { s with invoked := s.invoked ++ [n] } n

/-- Source lines 122-137: the loop over the ordered nodes, with the
accumulator `replaced`.  `replaced || eh->second(n)` evaluates its right
operand only when `replaced` is false. -/
def sweep : List Node → Bool → State → Bool × State
  | [], replaced, s => (replaced, s)
  | n :: rest, replaced, s =>
    if n.is_output || n.is_parameter then sweep rest replaced s
    else
      match ops_to_const_values n.kind with
      | none => sweep rest replaced s
      | some rule =>
        if replaced then sweep rest true s
        else
          let r := invoke rule s n
          sweep rest r.1 r.2

/-- The state a sweep over `f` starts from. -/
def State.init (f : Function) : State :=
  { nodes := f.nodes, replacements := [], invoked := [] }

/-- Source lines 119-139: `AlgebraicSimplification::run_on_function`. -/
def run_on_function (f : Function) : Bool × State :=
  sweep f.get_ordered_ops false (State.init f)

/-- The function after the sweep: the pass has no access to the parameter
and result lists, only the nodes are rewired. -/
def function_after (f : Function) : Function :=
  { parameters := f.parameters, results := f.results, nodes := (run_on_function f).2.nodes }

/-! ## Example graphs -/

/-- A parameter `x` of shape [4] (identity 0), a zero-rank constant holding
`v` (identity 1), its broadcast to shape [4] (identity 2), the node
`kind(x, broadcast)` (identity 3) and a result node on top (identity 4). -/
def example_nodes (kind : OpKind) (v : Int) : List Node :=
  [ { id := 0, kind := OpKind.Parameter, element_type := ElementType.f32, shape := [4],
      arguments := [], data := [], is_output := false },
    { id := 1, kind := OpKind.Constant, element_type := ElementType.f32, shape := [],
      arguments := [], data := [v], is_output := false },
    { id := 2, kind := OpKind.Broadcast, element_type := ElementType.f32, shape := [4],
      arguments := [1], data := [], is_output := false },
    { id := 3, kind := kind, element_type := ElementType.f32, shape := [4],
      arguments := [0, 2], data := [], is_output := false },
    { id := 4, kind := OpKind.Result, element_type := ElementType.f32, shape := [4],
      arguments := [3], data := [], is_output := true } ]

/-- The node `kind(x, broadcast(constant(v, []), [4]))` of `example_nodes`. -/
def example_node (kind : OpKind) : Node :=
  { id := 3, kind := kind, element_type := ElementType.f32, shape := [4],
    arguments := [0, 2], data := [], is_output := false }

/-- The function around `example_nodes`. -/
def example_function (kind : OpKind) (v : Int) : Function :=
  { parameters := [0], results := [4], nodes := example_nodes kind v }

/-- A parameter `x` of shape [4] (identity 0), a constant of shape [4] whose
four elements are 1 (identity 1), the node `multiply(x, constant)`
(identity 2) and a result node on top (identity 3). -/
def ones_nodes : List Node :=
  [ { id := 0, kind := OpKind.Parameter, element_type := ElementType.f32, shape := [4],
      arguments := [], data := [], is_output := false },
    { id := 1, kind := OpKind.Constant, element_type := ElementType.f32, shape := [4],
      arguments := [], data := [1, 1, 1, 1], is_output := false },
    { id := 2, kind := OpKind.Multiply, element_type := ElementType.f32, shape := [4],
      arguments := [0, 1], data := [], is_output := false },
    { id := 3, kind := OpKind.Result, element_type := ElementType.f32, shape := [4],
      arguments := [2], data := [], is_output := true } ]

/-- The node `multiply(x, constant([1, 1, 1, 1], [4]))` of `ones_nodes`. -/
def ones_node : Node :=
  { id := 2, kind := OpKind.Multiply, element_type := ElementType.f32, shape := [4],
    arguments := [0, 1], data := [], is_output := false }

/-- Two multiplications by a broadcast zero in one function: parameters `x`
(identity 0) and `y` (identity 4), the zero-rank constant 0 (identity 1), its
broadcast to shape [4] (identity 2), `multiply(x, broadcast)` (identity 3),
`multiply(y, broadcast)` (identity 5), their `dot` (identity 6) and the
result node (identity 7), listed in a topological order. -/
def two_multiplies : Function :=
  { parameters := [0, 4], results := [7],
    nodes :=
      [ { id := 0, kind := OpKind.Parameter, element_type := ElementType.f32, shape := [4],
          arguments := [], data := [], is_output := false },
        { id := 1, kind := OpKind.Constant, element_type := ElementType.f32, shape := [],
          arguments := [], data := [0], is_output := false },
        { id := 2, kind := OpKind.Broadcast, element_type := ElementType.f32, shape := [4],
          arguments := [1], data := [], is_output := false },
        { id := 3, kind := OpKind.Multiply, element_type := ElementType.f32, shape := [4],
          arguments := [0, 2], data := [], is_output := false },
        { id := 4, kind := OpKind.Parameter, element_type := ElementType.f32, shape := [4],
          arguments := [], data := [], is_output := false },
        { id := 5, kind := OpKind.Multiply, element_type := ElementType.f32, shape := [4],
          arguments := [4, 2], data := [], is_output := false },
        { id := 6, kind := OpKind.Dot, element_type := ElementType.f32, shape := [],
          arguments := [3, 5], data := [], is_output := false },
        { id := 7, kind := OpKind.Result, element_type := ElementType.f32, shape := [],
          arguments := [6], data := [], is_output := true } ] }

/-- The second multiplication of `two_multiplies`, `multiply(y, broadcast)`. -/
def second_multiply : Node :=
  { id := 5, kind := OpKind.Multiply, element_type := ElementType.f32, shape := [4],
    arguments := [4, 2], data := [], is_output := false }

/-- A function without any Add or Multiply node: `dot(x, broadcast(0))`. -/
def no_rule_function : Function :=
  example_function OpKind.Dot 0

/-! ## Topological sort and the order checker of its test -/

/-- Modelled from the spec: the ways a topological sort fails.
`CycleDetected` is the condition of the specification, `MalformedGraph` a
dangling operand reference, `OutOfFuel` the end of the recursion budget of
this embedding. -/
inductive SortError where
  | CycleDetected
  | MalformedGraph
  | OutOfFuel
  deriving DecidableEq, Repr

/-- The operands of one node are visited in their fixed order, left to
right; the first failure ends the traversal. -/
def visit_operands (visit : List Node → NodeId → Except SortError (List Node)) :
    List NodeId → List Node → Except SortError (List Node)
  | [], out => Except.ok out
  | a :: rest, out =>
    match visit out a with
    | Except.error e => Except.error e
    | Except.ok out1 => visit_operands visit rest out1

/-- Modelled from the spec: TopologicalSort (its source is in another file
of the repository), a depth-first postorder traversal with a visited set.
`out` is the sequence produced so far and is the visited set as well;
`stack` holds the nodes of the active recursion.  A node already produced
is not visited again; a node still on the active recursion stack is a
cycle; otherwise the operands are visited in order and the node is appended
after them. -/
def TopologicalSort.visit (g : List Node) :
    Nat → List NodeId → List Node → NodeId → Except SortError (List Node)
  | 0, _, _, _ => Except.error SortError.OutOfFuel
  | fuel + 1, stack, out, v =>
    if v ∈ out.map (fun n => n.id) then Except.ok out
    else if v ∈ stack then Except.error SortError.CycleDetected
    else
      match get_node g v with
      | none => Except.error SortError.MalformedGraph
      | some nd =>
        match visit_operands (fun o a => TopologicalSort.visit g fuel (v :: stack) o a)
            nd.arguments out with
        | Except.error e => Except.error e
        | Except.ok out1 => Except.ok (out1 ++ [nd])

/-- Modelled from the spec: `process(r)` on a new TopologicalSort followed
by `get_sorted_list()`. -/
def TopologicalSort.process (g : List Node) (fuel : Nat) (r : NodeId) :
    Except SortError (List Node) :=
  TopologicalSort.visit g fuel [] [] r

/-- Every operand edge of the graph goes to a node of strictly smaller rank:
the graph is acyclic, `rank` being the evidence. -/
def acyclic_by (rank : NodeId → Nat) (g : List Node) : Prop :=
  ∀ nd ∈ g, ∀ a ∈ nd.arguments, rank a < rank nd.id

/-- Every operand reference resolves to a node of the graph. -/
def operands_resolve (g : List Node) : Prop :=
  ∀ nd ∈ g, ∀ a ∈ nd.arguments, (get_node g a).isSome = true

/-- The order property: every operand of the node at a position is the
identity of a node at a strictly earlier position. -/
def operands_earlier (l : List Node) : Prop :=
  ∀ (i : Nat) (n : Node), l[i]? = some n →
    ∀ a ∈ n.arguments, ∃ (j : Nat) (m : Node), j < i ∧ l[j]? = some m ∧ m.id = a

/-- The same property read from the back of the sequence: `l` lists the
nodes latest first. -/
def operands_later : List Node → Prop
  | [] => True
  | n :: earlier => (∀ a ∈ n.arguments, ∃ m ∈ earlier, m.id = a) ∧ operands_later earlier

/-- Source test/topological_sort.cpp lines 42-51: the inner loop of
`validate_list` goes over the nodes before the current one and erases each
of them, once, from `dependencies` when `find` meets it there. -/
def erase_found (dependencies : List NodeId) (earlier : List Node) : List NodeId :=
  earlier.foldl (fun deps dep_tmp => deps.erase dep_tmp.id) dependencies

/-- Source test/topological_sort.cpp lines 32-56: the outer loop, from the
last node to the first (the argument lists the nodes latest first), with
the flag `rc`. -/
def validate_loop : List Node → Bool → Bool
  | [], rc => rc
  | node :: earlier, rc =>
    let dependencies := erase_found node.arguments earlier
    validate_loop earlier (if dependencies.length > 0 then false else rc)

/-- Source test/topological_sort.cpp lines 29-58: `validate_list`. -/
def validate_list (nodes : List Node) : Bool :=
  validate_loop nodes.reverse true

/-- A node of the test graph; element type and shape play no role in the
sort. -/
def test_node (i : NodeId) (kind : OpKind) (args : List NodeId) : Node :=
  { id := i, kind := kind, element_type := ElementType.f32, shape := [1],
    arguments := args, data := [], is_output := false }

/-- The graph of `TEST(topological_sort, basic)`: parameters `args[0..9]`
(identities 0 to 9), `t0 = add(args[0], args[1])` (10), `t1 = dot(t0,
args[2])` (11), `t2 = multiply(t0, args[3])` (12), `t3 = add(t1, args[4])`
(13), `t4 = add(t2, args[5])` (14) and `r0 = add(t3, t4)` (15). -/
def test_graph : List Node :=
  (List.range 10).map (fun i => test_node i OpKind.Parameter []) ++
  [ test_node 10 OpKind.Add [0, 1],
    test_node 11 OpKind.Dot [10, 2],
    test_node 12 OpKind.Multiply [10, 3],
    test_node 13 OpKind.Add [11, 4],
    test_node 14 OpKind.Add [12, 5],
    test_node 15 OpKind.Add [13, 14] ]

/-- A parameter `x` followed by `add(x, x)`: a valid order in which a node
lists the same operand twice. -/
def double_operand_list : List Node :=
  [ test_node 0 OpKind.Parameter [], test_node 1 OpKind.Add [0, 0] ]

/-- The sequence the sort gives for the test graph from the root `r0`. -/
def test_sorted_list : List Node :=
  [0, 1, 10, 2, 11, 4, 13, 3, 12, 5, 14, 15].filterMap (get_node test_graph)

/-! ## General facts about the rules and the sweep -/

/-- A node the sweep dispatches to a rule: neither an output nor a
parameter, of a kind the registry knows. -/
def eligible (n : Node) : Prop :=
  n.is_output = false ∧ n.is_parameter = false ∧ (n.kind = OpKind.Add ∨ n.kind = OpKind.Multiply)

theorem simplify_multiply_effect (s : State) (n : Node) :
    simplify_multiply s n = (false, s) ∨
      ∃ m, simplify_multiply s n = (true, replace_node s n m) := by
  unfold simplify_multiply
  simp only []
  split
  · exact Or.inl rfl
  · split
    · exact Or.inl rfl
    · split_ifs
      · exact Or.inr ⟨_, rfl⟩
      · exact Or.inr ⟨_, rfl⟩
      · exact Or.inl rfl

theorem simplify_add_effect (s : State) (n : Node) :
    simplify_add s n = (false, s) ∨
      ∃ m, simplify_add s n = (true, replace_node s n m) := by
  unfold simplify_add
  simp only []
  split
  · exact Or.inl rfl
  · split
    · exact Or.inl rfl
    · split_ifs
      · exact Or.inr ⟨_, rfl⟩
      · exact Or.inl rfl

theorem registry_kind (k : OpKind) (rule : State → Node → Bool × State)
    (h : ops_to_const_values k = some rule) :
    (k = OpKind.Add ∧ rule = simplify_add) ∨ (k = OpKind.Multiply ∧ rule = simplify_multiply) := by
  cases k <;> simp [ops_to_const_values] at h
  · exact Or.inl ⟨rfl, h.symm⟩
  · exact Or.inr ⟨rfl, h.symm⟩

theorem registry_none (k : OpKind) (h1 : k ≠ OpKind.Add) (h2 : k ≠ OpKind.Multiply) :
    ops_to_const_values k = none := by
  cases k <;> simp [ops_to_const_values] at h1 h2 ⊢

theorem registry_effect (k : OpKind) (rule : State → Node → Bool × State)
    (h : ops_to_const_values k = some rule) (s : State) (n : Node) :
    rule s n = (false, s) ∨ ∃ m, rule s n = (true, replace_node s n m) := by
  rcases registry_kind k rule h with ⟨_, rfl⟩ | ⟨_, rfl⟩
  · exact simplify_add_effect s n
  · exact simplify_multiply_effect s n

/-- Once the accumulator is true the rest of the loop changes nothing. -/
theorem sweep_true (l : List Node) (s : State) : sweep l true s = (true, s) := by
  induction l with
  | nil => rfl
  | cons n rest ih =>
    rw [sweep]
    by_cases hskip : (n.is_output || n.is_parameter) = true
    · simpa [hskip] using ih
    · cases hreg : ops_to_const_values n.kind with
      | none => simpa [hskip, hreg] using ih
      | some rule => simpa [hskip, hreg] using ih

/-- The shape of every run of the loop that starts with the accumulator
false: rules are invoked on a list `J` of eligible nodes, and either none of
them fired and nothing else changed, or exactly the last of them fired and
its one replacement is the only change. -/
theorem sweep_false (l : List Node) : ∀ s : State,
    ∃ J : List Node, (∀ n ∈ J, n ∈ l ∧ eligible n) ∧
      (sweep l false s = (false, { s with invoked := s.invoked ++ J }) ∨
        ∃ n m, n ∈ J ∧
          sweep l false s = (true, replace_node { s with invoked := s.invoked ++ J } n m)) := by
  induction l with
  | nil =>
    intro s
    exact ⟨[], by simp, Or.inl (by simp [sweep])⟩
  | cons a rest ih =>
    intro s
    by_cases hskip : (a.is_output || a.is_parameter) = true
    · obtain ⟨J, hJ, hres⟩ := ih s
      refine ⟨J, fun n hn => ⟨List.mem_cons_of_mem _ (hJ n hn).1, (hJ n hn).2⟩, ?_⟩
      have hstep : sweep (a :: rest) false s = sweep rest false s := by
        rw [sweep]; simp [hskip]
      rw [hstep]; exact hres
    · cases hreg : ops_to_const_values a.kind with
      | none =>
        obtain ⟨J, hJ, hres⟩ := ih s
        refine ⟨J, fun n hn => ⟨List.mem_cons_of_mem _ (hJ n hn).1, (hJ n hn).2⟩, ?_⟩
        have hstep : sweep (a :: rest) false s = sweep rest false s := by
          rw [sweep]; simp [hskip, hreg]
        rw [hstep]; exact hres
      | some rule =>
        have hel : eligible a := by
          simp only [Bool.or_eq_true, not_or, Bool.not_eq_true] at hskip
          refine ⟨hskip.1, hskip.2, ?_⟩
          rcases registry_kind _ _ hreg with ⟨h, _⟩ | ⟨h, _⟩
          · exact Or.inl h
          · exact Or.inr h
        have hstep : sweep (a :: rest) false s
            = sweep rest (invoke rule s a).1 (invoke rule s a).2 := by
          rw [sweep]; simp [hskip, hreg]
        rw [hstep]
        rcases registry_effect _ _ hreg { s with invoked := s.invoked ++ [a] } a with h | ⟨m, h⟩
        · obtain ⟨J, hJ, hres⟩ := ih { s with invoked := s.invoked ++ [a] }
          refine ⟨a :: J, ?_, ?_⟩
          · intro n hn
            rcases List.mem_cons.1 hn with rfl | hn
            · exact ⟨List.mem_cons_self _ _, hel⟩
            · exact ⟨List.mem_cons_of_mem _ (hJ n hn).1, (hJ n hn).2⟩
          · simp only [invoke, h]
            have e : s.invoked ++ a :: J = s.invoked ++ [a] ++ J := by simp
            rw [e]
            rcases hres with hres | ⟨n, m, hn, hres⟩
            · exact Or.inl hres
            · exact Or.inr ⟨n, m, List.mem_cons_of_mem _ hn, hres⟩
        · refine ⟨[a], ?_, Or.inr ⟨a, m, List.mem_singleton_self a, ?_⟩⟩
          · intro n hn
            rw [List.mem_singleton.1 hn]
            exact ⟨List.mem_cons_self _ _, hel⟩
          · simp only [invoke, h]
            exact sweep_true _ _

theorem match_const_label (g : List Node) (cl : Node) (a : NodeId) (pm0 pm : PatternMap)
    (h0 : pm0.lookup cl.id = none)
    (h : match_node g (Pattern.label cl [Pattern.op OpKind.Constant []]) a pm0 = some pm) :
    pm = (cl.id, a) :: pm0 ∧ ∃ nd, get_node g a = some nd ∧ nd.kind = OpKind.Constant := by
  simp only [match_node, h0, match_wrapped] at h
  cases hg : get_node g a with
  | none => simp [hg] at h
  | some nd =>
    simp only [hg] at h
    split_ifs at h with hk
    · cases hargs : nd.arguments with
      | nil =>
        simp [hargs, match_arguments] at h
        exact ⟨h.symm, nd, rfl, hk⟩
      | cons _ _ => simp [hargs, match_arguments] at h
    · simp at h

theorem match_any_inner (g : List Node) (pred : Node → Bool) (P : Pattern) (y : NodeId)
    (pm0 pm : PatternMap) (h : match_node g (Pattern.any pred P) y pm0 = some pm) :
    ∃ a, match_node g P a pm0 = some pm := by
  simp only [match_node] at h
  cases hg : get_node g y with
  | none => simp [hg] at h
  | some nd =>
    simp only [hg] at h
    split_ifs at h
    · obtain ⟨a, _, ha⟩ := List.exists_of_findSome?_eq_some h
      exact ⟨a, ha⟩
    · exact ⟨y, h⟩

theorem rule_match_binds (T : OpKind) (g : List Node) (n : Node) (pm : PatternMap)
    (h : Matcher.run g (rule_matcher T g) n = some pm) :
    ∃ cnst, pattern_map_get g pm (rule_const_label g) = some cnst ∧
      cnst.kind = OpKind.Constant := by
  unfold Matcher.run rule_matcher create_binary_matcher at h
  simp only [match_node] at h
  cases hn : get_node g n.id with
  | none => simp [hn] at h
  | some nd =>
    simp only [hn] at h
    split_ifs at h with hk
    cases hargs : nd.arguments with
    | nil => simp [hargs, match_arguments] at h
    | cons x t =>
      rw [hargs] at h
      cases t with
      | nil =>
        rw [match_arguments] at h
        cases hx : match_node g (Pattern.label (rule_label g) []) x [] with
        | none => simp [hx] at h
        | some pm1 => simp [hx, match_arguments] at h
      | cons y t2 =>
        rw [match_arguments] at h
        have hx : match_node g (Pattern.label (rule_label g) []) x []
            = some [((rule_label g).id, x)] := by
          simp [match_node, match_wrapped]
        rw [hx] at h
        simp only at h
        rw [match_arguments] at h
        cases hany : match_node g (Pattern.any bcst_pred (Pattern.label (rule_const_label g)
            [Pattern.op OpKind.Constant []])) y [((rule_label g).id, x)] with
        | none => simp [hany] at h
        | some pm1 =>
          simp only [hany] at h
          cases t2 with
          | cons _ _ => simp [match_arguments] at h
          | nil =>
            simp only [match_arguments, Option.some.injEq] at h
            subst h
            obtain ⟨a, ha⟩ := match_any_inner _ _ _ _ _ _ hany
            have h0 : List.lookup (rule_const_label g).id [((rule_label g).id, x)] = none := by
              have hne : ((rule_const_label g).id == (rule_label g).id) = false := by
                rw [beq_eq_false_iff_ne]
                simp [rule_const_label, rule_label, Label.create]
              simp [List.lookup, hne]
            obtain ⟨hpm, c, hc, hk2⟩ := match_const_label _ _ _ _ _ h0 ha
            refine ⟨c, ?_, hk2⟩
            subst hpm
            simp [pattern_map_get, List.lookup, hc]

/-- The rule for Add never fires on a node that is not a Multiply: its
matcher is the one for Multiply. -/
theorem simplify_add_not_multiply (s : State) (n nd : Node)
    (hn : get_node s.nodes n.id = some nd) (hk : nd.kind ≠ OpKind.Multiply) :
    simplify_add s n = (false, s) := by
  have hm : Matcher.run s.nodes (rule_matcher OpKind.Multiply s.nodes) n = none := by
    simp [Matcher.run, rule_matcher, create_binary_matcher, match_node, hn, hk]
  simp [simplify_add, hm]

/-- Whatever value a zero-rank constant operand holds, `simplify_multiply`
takes it for zero: the canonical constant is a new zero-rank constant
holding the tested value 0, and it is what the node is replaced by. -/
theorem simplify_multiply_zero_rank (s : State) (n cnst : Node) (pm : PatternMap)
    (hm : Matcher.run s.nodes (rule_matcher OpKind.Multiply s.nodes) n = some pm)
    (hc : pattern_map_get s.nodes pm (rule_const_label s.nodes) = some cnst)
    (hs : cnst.shape = []) :
    simplify_multiply s n
      = (true, replace_node s n (Constant.create (fresh_id s.nodes + 5) cnst.element_type [] [0])) := by
  simp [simplify_multiply, hm, hc, canonicalize_constant, hs, is_zero, Constant.create]

/-! ## The claims -/

/-- C1, evaluated at the witness `multiply(x, broadcast(constant(0, []), [4]))`
with `x` a parameter of shape [4]: `simplify_multiply` returns true, but the
node it substitutes is the zero-rank constant made by
`canonicalize_constant` (shape `[]`), not a constant of the shape [4] of the
replaced node. -/
theorem C1_multiply_by_zero_substitutes_scalar :
    (simplify_multiply (State.init (example_function OpKind.Multiply 0))
        (example_node OpKind.Multiply)).1 = true ∧
      (simplify_multiply (State.init (example_function OpKind.Multiply 0))
        (example_node OpKind.Multiply)).2.replacements
        = [(example_node OpKind.Multiply, Constant.create 10 ElementType.f32 [] [0])] ∧
      is_zero (Constant.create 10 ElementType.f32 [] [0]) = true ∧
      (Constant.create 10 ElementType.f32 [] [0]).shape = [] ∧
      (example_node OpKind.Multiply).shape = [4] ∧
      (Constant.create 10 ElementType.f32 [] [0]).shape ≠ (example_node OpKind.Multiply).shape := by
  decide

/-- C2, evaluated at the witness `multiply(x, broadcast(constant(1, []), [4]))`:
the Label is bound to `x` (identity 0), `simplify_multiply` returns true, and
the node substituted is not `x` but a new zero-rank constant 0 (identity 10):
the zero-rank constant 1 is canonicalised to a new constant holding the
tested value 0, so the multiply-by-zero branch fires. -/
theorem C2_multiply_by_one_substitutes_zero_constant :
    (Matcher.run (example_nodes OpKind.Multiply 1)
        (rule_matcher OpKind.Multiply (example_nodes OpKind.Multiply 1))
        (example_node OpKind.Multiply)).map
          (fun pm => pm.lookup (rule_label (example_nodes OpKind.Multiply 1)).id) = some (some 0) ∧
      (simplify_multiply (State.init (example_function OpKind.Multiply 1))
        (example_node OpKind.Multiply)).1 = true ∧
      (simplify_multiply (State.init (example_function OpKind.Multiply 1))
        (example_node OpKind.Multiply)).2.replacements
        = [(example_node OpKind.Multiply, Constant.create 10 ElementType.f32 [] [0])] ∧
      get_node (example_nodes OpKind.Multiply 1) 10 = none := by
  decide

/-- C3, evaluated at the witness `add(x, broadcast(constant(0, []), [4]))`:
`simplify_add`, whose matcher is built for Multiply, returns false and leaves
the state as it was; the node is not replaced by `x`. -/
theorem C3_simplify_add_does_not_fire :
    simplify_add (State.init (example_function OpKind.Add 0)) (example_node OpKind.Add)
      = (false, State.init (example_function OpKind.Add 0)) := by
  decide

/-- C4, evaluated at the witness `multiply(x, broadcast(constant(2, []), [4]))`:
`simplify_multiply` returns true and replaces the node by a new zero-rank
constant 0, although the constant operand is neither 0 nor 1. -/
theorem C4_multiply_by_two_is_rewritten :
    (simplify_multiply (State.init (example_function OpKind.Multiply 2))
        (example_node OpKind.Multiply)).1 = true ∧
      (simplify_multiply (State.init (example_function OpKind.Multiply 2))
        (example_node OpKind.Multiply)).2.replacements
        = [(example_node OpKind.Multiply, Constant.create 10 ElementType.f32 [] [0])] ∧
      get_node (simplify_multiply (State.init (example_function OpKind.Multiply 2))
        (example_node OpKind.Multiply)).2.nodes 4
        = some { id := 4, kind := OpKind.Result, element_type := ElementType.f32, shape := [4],
                 arguments := [10], data := [], is_output := true } := by
  decide

/-- C5, evaluated at `multiply(x, constant([1, 1, 1, 1], [4]))` with `x` of
element type f32 and shape [4]: the rule fires and substitutes the
placeholder `label` of the pattern, a node of element type i32 and shape
`[]`; neither the element type nor the shape of the replaced node is kept. -/
theorem C5_replacement_changes_type_and_shape :
    (simplify_multiply { nodes := ones_nodes, replacements := [], invoked := [] } ones_node).1 = true ∧
      (simplify_multiply { nodes := ones_nodes, replacements := [], invoked := [] }
        ones_node).2.replacements = [(ones_node, rule_label ones_nodes)] ∧
      (rule_label ones_nodes).kind = OpKind.Label ∧
      (rule_label ones_nodes).element_type = ElementType.i32 ∧
      ones_node.element_type = ElementType.f32 ∧
      (rule_label ones_nodes).shape = [] ∧
      ones_node.shape = [4] ∧
      (rule_label ones_nodes).element_type ≠ ones_node.element_type ∧
      (rule_label ones_nodes).shape ≠ ones_node.shape := by
  decide

/-- C6, evaluated at `two_multiplies`: the second multiplication is in the
order, is neither a parameter nor an output and has a registered rule, which
would fire on it, yet after the first multiplication was rewritten no rule is
invoked on it: the only node a rule was invoked on is the first. -/
theorem C6_no_rule_invoked_after_first_rewrite :
    second_multiply ∈ two_multiplies.get_ordered_ops ∧
      second_multiply.is_output = false ∧ second_multiply.is_parameter = false ∧
      (ops_to_const_values second_multiply.kind).isSome = true ∧
      (simplify_multiply (run_on_function two_multiplies).2 second_multiply).1 = true ∧
      (run_on_function two_multiplies).1 = true ∧
      (run_on_function two_multiplies).2.invoked.map (fun n => n.id) = [3] ∧
      second_multiply ∉ (run_on_function two_multiplies).2.invoked := by
  decide

/-- C7: `run_on_function` returns true exactly when at least one call of
`replace_node` was made during the sweep, and when it returns false the
nodes of the function are as they were; each of the two rules returns true
exactly when it has called `replace_node`, and returns the state as it was
otherwise. -/
theorem C7_returns_true_iff_replaced (f : Function) :
    ((run_on_function f).1 = true ↔ (run_on_function f).2.replacements ≠ []) ∧
      ((run_on_function f).1 = false → (run_on_function f).2.nodes = f.nodes) ∧
      (∀ (s : State) (n : Node),
        ((simplify_multiply s n).1 = true ↔
          (simplify_multiply s n).2.replacements ≠ s.replacements) ∧
        ((simplify_multiply s n).1 = false → (simplify_multiply s n).2 = s)) ∧
      (∀ (s : State) (n : Node),
        ((simplify_add s n).1 = true ↔ (simplify_add s n).2.replacements ≠ s.replacements) ∧
        ((simplify_add s n).1 = false → (simplify_add s n).2 = s)) := by
  refine ⟨?_, ?_, ?_, ?_⟩
  · obtain ⟨J, _, h | ⟨n, m, _, h⟩⟩ := sweep_false f.get_ordered_ops (State.init f)
    · have h2 : run_on_function f = (false, _) := h
      rw [h2]
      simp [State.init]
    · have h2 : run_on_function f = (true, _) := h
      rw [h2]
      simp [State.init, replace_node]
  · obtain ⟨J, _, h | ⟨n, m, _, h⟩⟩ := sweep_false f.get_ordered_ops (State.init f)
    · have h2 : run_on_function f = (false, _) := h
      rw [h2]
      simp [State.init]
    · have h2 : run_on_function f = (true, _) := h
      rw [h2]
      simp
  · intro s n
    rcases simplify_multiply_effect s n with h | ⟨m, h⟩
    · rw [h]; simp
    · rw [h]; simp [replace_node]
  · intro s n
    rcases simplify_add_effect s n with h | ⟨m, h⟩
    · rw [h]; simp
    · rw [h]; simp [replace_node]

/-- C7 at two functions: the sweep over `add(x, broadcast(0))` returns false
and leaves the nodes as they were; the sweep over
`multiply(x, broadcast(0))` returns true and has made a replacement. -/
theorem C7_returns_true_iff_replaced_witness :
    (run_on_function (example_function OpKind.Add 0)).2.nodes
        = (example_function OpKind.Add 0).nodes ∧
      (run_on_function (example_function OpKind.Multiply 0)).2.replacements ≠ [] :=
  ⟨(C7_returns_true_iff_replaced (example_function OpKind.Add 0)).2.1 (by decide),
   (C7_returns_true_iff_replaced (example_function OpKind.Multiply 0)).1.1 (by decide)⟩

/-- C8: every node `run_on_function` passes to a rule is neither an output
nor a parameter; every target of a replacement is such a node; and the
parameter list and the result list of the function are the same after the
sweep as before. -/
theorem C8_parameters_and_results_untouched (f : Function) :
    (∀ n ∈ (run_on_function f).2.invoked, n.is_output = false ∧ n.is_parameter = false) ∧
      (∀ p ∈ (run_on_function f).2.replacements,
        p.1 ∈ (run_on_function f).2.invoked ∧ p.1.is_output = false ∧ p.1.is_parameter = false) ∧
      (function_after f).parameters = f.parameters ∧
      (function_after f).results = f.results := by
  refine ⟨?_, ?_, rfl, rfl⟩
  · obtain ⟨J, hJ, h | ⟨n, m, _, h⟩⟩ := sweep_false f.get_ordered_ops (State.init f)
    · have h2 : run_on_function f = (false, _) := h
      rw [h2]
      intro n hn
      have hn2 : n ∈ J := by simpa [State.init] using hn
      exact ⟨(hJ n hn2).2.1, (hJ n hn2).2.2.1⟩
    · have h2 : run_on_function f = (true, _) := h
      rw [h2]
      intro a ha
      have ha2 : a ∈ J := by simpa [State.init, replace_node] using ha
      exact ⟨(hJ a ha2).2.1, (hJ a ha2).2.2.1⟩
  · obtain ⟨J, hJ, h | ⟨n, m, hn, h⟩⟩ := sweep_false f.get_ordered_ops (State.init f)
    · have h2 : run_on_function f = (false, _) := h
      rw [h2]
      intro p hp
      simp [State.init] at hp
    · have h2 : run_on_function f = (true, _) := h
      rw [h2]
      intro p hp
      have hp2 : p = (n, m) := by simpa [State.init, replace_node] using hp
      subst hp2
      refine ⟨?_, (hJ n hn).2.1, (hJ n hn).2.2.1⟩
      simpa [State.init, replace_node] using hn

/-- C8 at `multiply(x, broadcast(0))`: the one node a rule replaces there is
neither an output nor a parameter. -/
theorem C8_parameters_and_results_untouched_witness :
    (example_node OpKind.Multiply).is_output = false ∧
      (example_node OpKind.Multiply).is_parameter = false :=
  ((C8_parameters_and_results_untouched (example_function OpKind.Multiply 0)).2.1
    (example_node OpKind.Multiply, Constant.create 10 ElementType.f32 [] [0]) (by decide)).2

/-- C9: a rule is invoked, and a replacement made, only on nodes of kind Add
or Multiply; a node of any other kind is stepped over with the accumulator
and the state as they were, the loop going on with the next node; and the
sweep over a function without Add and Multiply nodes returns false and
changes nothing. -/
theorem C9_unregistered_kinds_skipped (f : Function) :
    (∀ n ∈ (run_on_function f).2.invoked, n.kind = OpKind.Add ∨ n.kind = OpKind.Multiply) ∧
      (∀ p ∈ (run_on_function f).2.replacements,
        p.1.kind = OpKind.Add ∨ p.1.kind = OpKind.Multiply) ∧
      (∀ (n : Node) (rest : List Node) (replaced : Bool) (s : State),
        n.kind ≠ OpKind.Add → n.kind ≠ OpKind.Multiply →
          sweep (n :: rest) replaced s = sweep rest replaced s) ∧
      ((∀ n ∈ f.nodes, n.kind ≠ OpKind.Add ∧ n.kind ≠ OpKind.Multiply) →
        run_on_function f = (false, State.init f)) := by
  refine ⟨?_, ?_, ?_, ?_⟩
  · obtain ⟨J, hJ, h | ⟨n, m, _, h⟩⟩ := sweep_false f.get_ordered_ops (State.init f)
    · have h2 : run_on_function f = (false, _) := h
      rw [h2]
      intro n hn
      have hn2 : n ∈ J := by simpa [State.init] using hn
      exact (hJ n hn2).2.2.2
    · have h2 : run_on_function f = (true, _) := h
      rw [h2]
      intro a ha
      have ha2 : a ∈ J := by simpa [State.init, replace_node] using ha
      exact (hJ a ha2).2.2.2
  · obtain ⟨J, hJ, h | ⟨n, m, hn, h⟩⟩ := sweep_false f.get_ordered_ops (State.init f)
    · have h2 : run_on_function f = (false, _) := h
      rw [h2]
      intro p hp
      simp [State.init] at hp
    · have h2 : run_on_function f = (true, _) := h
      rw [h2]
      intro p hp
      have hp2 : p = (n, m) := by simpa [State.init, replace_node] using hp
      subst hp2
      exact (hJ n hn).2.2.2
  · intro n rest replaced s h1 h2
    rw [sweep]
    simp [registry_none n.kind h1 h2]
  · intro hf
    obtain ⟨J, hJ, h | ⟨n, m, hn, h⟩⟩ := sweep_false f.get_ordered_ops (State.init f)
    · have hnil : J = [] := by
        cases J with
        | nil => rfl
        | cons a J =>
          have ha := hJ a (List.mem_cons_self _ _)
          have hk := hf a ha.1
          rcases ha.2.2.2 with hh | hh
          · exact absurd hh hk.1
          · exact absurd hh hk.2
      subst hnil
      have h2 : run_on_function f = (false, _) := h
      rw [h2]
      simp [State.init]
    · have ha := hJ n hn
      have hk := hf n ha.1
      rcases ha.2.2.2 with hh | hh
      · exact absurd hh hk.1
      · exact absurd hh hk.2

/-- C9 at `dot(x, broadcast(0))`, a function without Add and Multiply nodes:
the sweep returns false and the state is the initial one. -/
theorem C9_unregistered_kinds_skipped_witness :
    run_on_function no_rule_function = (false, State.init no_rule_function) :=
  (C9_unregistered_kinds_skipped no_rule_function).2.2.2 (by decide)

/-- C10, evaluated at the function around `add(x, broadcast(constant(0, []), [4]))`,
which holds an eligible identity (an add of a broadcast zero constant that
is neither parameter nor result): `run_on_function` returns false, the rule
was invoked on the add node and made no replacement. -/
theorem C10_add_zero_sweep_returns_false :
    (example_node OpKind.Add) ∈ (example_function OpKind.Add 0).get_ordered_ops ∧
      (run_on_function (example_function OpKind.Add 0)).1 = false ∧
      (run_on_function (example_function OpKind.Add 0)).2.invoked = [example_node OpKind.Add] ∧
      (run_on_function (example_function OpKind.Add 0)).2.replacements = [] := by
  decide

/-! ## General facts about the sort and the order checker -/

theorem get_node_some (g : List Node) (v : NodeId) (nd : Node) (h : get_node g v = some nd) :
    nd ∈ g ∧ nd.id = v := by
  unfold get_node at h
  refine ⟨List.mem_of_find?_eq_some h, ?_⟩
  have := List.find?_some h
  simpa using this

/-- The order property can be read from the back. -/
theorem operands_later_reverse (l : List Node) :
    operands_later l.reverse → operands_earlier l := by
  induction l using List.reverseRecOn with
  | nil =>
    intro _ i n hi
    simp at hi
  | append_singleton init x ih =>
    intro h i n hi a ha
    rw [List.reverse_append, List.reverse_singleton, List.singleton_append] at h
    obtain ⟨hx, hinit⟩ := h
    by_cases hlt : i < init.length
    · rw [List.getElem?_append_left hlt] at hi
      obtain ⟨j, m, hj, hm, hid⟩ := ih hinit i n hi a ha
      refine ⟨j, m, hj, ?_, hid⟩
      rw [List.getElem?_append_left (Nat.lt_trans hj hlt)]
      exact hm
    · have hge : init.length ≤ i := Nat.le_of_not_lt hlt
      rw [List.getElem?_append_right hge] at hi
      have hi0 : i - init.length = 0 := by
        by_contra hne
        have : ([x] : List Node)[i - init.length]? = none := by
          apply List.getElem?_eq_none
          simp
          omega
        rw [this] at hi
        cases hi
      rw [hi0] at hi
      simp at hi
      subst hi
      obtain ⟨m, hm, hid⟩ := hx a ha
      rw [List.mem_reverse] at hm
      obtain ⟨j, hj, hjm⟩ := List.getElem_of_mem hm
      refine ⟨j, m, by omega, ?_, hid⟩
      rw [List.getElem?_append_left hj, List.getElem?_eq_getElem hj, hjm]

theorem validate_loop_false (l : List Node) : validate_loop l false = false := by
  induction l with
  | nil => rfl
  | cons n rest ih =>
    rw [validate_loop]
    simpa using ih

/-- Whatever `erase_found` leaves nothing of was the identity of an earlier
node. -/
theorem erase_found_nil (earlier : List Node) : ∀ deps : List NodeId,
    erase_found deps earlier = [] → ∀ a ∈ deps, ∃ m ∈ earlier, m.id = a := by
  induction earlier with
  | nil =>
    intro deps h a ha
    simp [erase_found] at h
    subst h
    cases ha
  | cons t rest ih =>
    intro deps h a ha
    by_cases hat : a = t.id
    · exact ⟨t, List.mem_cons_self _ _, hat.symm⟩
    · have h2 : erase_found (deps.erase t.id) rest = [] := by
        simpa [erase_found] using h
      have ha2 : a ∈ deps.erase t.id := (List.mem_erase_of_ne hat).2 ha
      obtain ⟨m, hm, hid⟩ := ih _ h2 a ha2
      exact ⟨m, List.mem_cons_of_mem _ hm, hid⟩

theorem validate_loop_true (l : List Node) :
    validate_loop l true = true → operands_later l := by
  induction l with
  | nil => intro _; trivial
  | cons n rest ih =>
    intro h
    rw [validate_loop] at h
    by_cases hd : erase_found n.arguments rest = []
    · simp only [hd, List.length_nil, gt_iff_lt, Nat.lt_irrefl, ↓reduceIte] at h
      exact ⟨erase_found_nil rest _ hd, ih h⟩
    · have hpos : (erase_found n.arguments rest).length > 0 :=
        List.length_pos.2 hd
      simp only [hpos, ↓reduceIte] at h
      rw [validate_loop_false] at h
      cases h
/-- A traversal of an operand list whose every visit succeeds, extends the
sequence and keeps `P`, succeeds, extends the sequence and keeps `P`; every
operand is in the sequence afterwards. -/
theorem visit_operands_ok (f : List Node → NodeId → Except SortError (List Node))
    (P : List Node → Prop) (args : List NodeId)
    (hf : ∀ a ∈ args, ∀ out, P out →
      ∃ ext, f out a = Except.ok (out ++ ext) ∧ a ∈ (out ++ ext).map (fun n => n.id) ∧
        P (out ++ ext)) :
    ∀ out, P out →
      ∃ ext, visit_operands f args out = Except.ok (out ++ ext) ∧
        (∀ a ∈ args, a ∈ (out ++ ext).map (fun n => n.id)) ∧ P (out ++ ext) := by
  induction args with
  | nil =>
    intro out hP
    exact ⟨[], by simp [visit_operands], by simp, by simpa using hP⟩
  | cons a rest ih =>
    intro out hP
    obtain ⟨e1, h1, ha1, hP1⟩ := hf a (List.mem_cons_self _ _) out hP
    obtain ⟨e2, h2, hall2, hP2⟩ :=
      ih (fun b hb => hf b (List.mem_cons_of_mem _ hb)) (out ++ e1) hP1
    refine ⟨e1 ++ e2, ?_, ?_, ?_⟩
    · rw [visit_operands, h1]
      simp only
      rw [h2, List.append_assoc]
    · intro b hb
      rw [← List.append_assoc]
      rcases List.mem_cons.1 hb with rfl | hb
      · rw [List.map_append]
        exact List.mem_append_left _ ha1
      · exact hall2 b hb
    · rw [← List.append_assoc]
      exact hP2

/-- On an acyclic graph whose operand references resolve, a visit with a
recursion budget above the rank of the node succeeds: it extends the
sequence, the node is in the sequence afterwards, and the order property is
kept. -/
theorem visit_ok (g : List Node) (rank : NodeId → Nat) (hacyc : acyclic_by rank g)
    (hres : operands_resolve g) : ∀ (fuel : Nat) (stack : List NodeId) (out : List Node)
      (v : NodeId), rank v < fuel → (∀ s ∈ stack, rank v < rank s) →
      (get_node g v).isSome = true → operands_later out.reverse →
      ∃ ext, TopologicalSort.visit g fuel stack out v = Except.ok (out ++ ext) ∧
        v ∈ (out ++ ext).map (fun n => n.id) ∧ operands_later (out ++ ext).reverse := by
  intro fuel
  induction fuel with
  | zero =>
    intro stack out v hf
    exact absurd hf (Nat.not_lt_zero _)
  | succ fuel ih =>
    intro stack out v hf hstack hv hout
    rw [TopologicalSort.visit]
    by_cases hvis : v ∈ out.map (fun n => n.id)
    · exact ⟨[], by simp [hvis], by simpa using hvis, by simpa using hout⟩
    · have hns : v ∉ stack := fun hmem => absurd (hstack v hmem) (Nat.lt_irrefl _)
      obtain ⟨nd, hnd⟩ := Option.isSome_iff_exists.1 hv
      obtain ⟨hmem, hid⟩ := get_node_some g v nd hnd
      have hargs : ∀ a ∈ nd.arguments, ∀ o, operands_later o.reverse →
          ∃ ext, (fun o a => TopologicalSort.visit g fuel (v :: stack) o a) o a
              = Except.ok (o ++ ext) ∧
            a ∈ (o ++ ext).map (fun n => n.id) ∧ operands_later (o ++ ext).reverse := by
        intro a ha o ho
        have hlt : rank a < rank v := by
          have := hacyc nd hmem a ha
          rwa [hid] at this
        refine ih (v :: stack) o a (by omega) ?_ (hres nd hmem a ha) ho
        intro s hs
        rcases List.mem_cons.1 hs with rfl | hs
        · exact hlt
        · exact Nat.lt_trans hlt (hstack s hs)
      obtain ⟨e1, h1, hall, hP1⟩ :=
        visit_operands_ok _ (fun o => operands_later o.reverse) nd.arguments hargs out hout
      refine ⟨e1 ++ [nd], ?_, ?_, ?_⟩
      · simp only [hvis, hns, hnd, h1, if_false, List.append_assoc]
      · rw [← List.append_assoc, List.map_append]
        exact List.mem_append_right _ (by simp [hid])
      · rw [← List.append_assoc, List.reverse_append, List.reverse_singleton,
          List.singleton_append]
        refine ⟨?_, hP1⟩
        intro a ha
        have := hall a ha
        rw [List.mem_map] at this
        obtain ⟨m, hm, hma⟩ := this
        exact ⟨m, List.mem_reverse.2 hm, hma⟩


theorem sweep_append (l1 l2 : List Node) : ∀ (b : Bool) (s : State),
    sweep (l1 ++ l2) b s = sweep l2 (sweep l1 b s).1 (sweep l1 b s).2 := by
  induction l1 with
  | nil => intro b s; rfl
  | cons n rest ih =>
    intro b s
    rw [List.cons_append, sweep, sweep]
    by_cases hskip : (n.is_output || n.is_parameter) = true
    · simp only [hskip, if_true]
      exact ih b s
    · simp only [hskip, if_false]
      cases hreg : ops_to_const_values n.kind with
      | none => exact ih b s
      | some rule =>
        cases b with
        | true => simpa using ih true s
        | false => simpa using ih _ _

/-- The converse reading of the order property. -/
theorem operands_earlier_reverse (l : List Node) :
    operands_earlier l → operands_later l.reverse := by
  induction l using List.reverseRecOn with
  | nil => intro _; trivial
  | append_singleton init x ih =>
    intro h
    rw [List.reverse_append, List.reverse_singleton, List.singleton_append]
    refine ⟨?_, ih ?_⟩
    · intro a ha
      have hx : (init ++ [x])[init.length]? = some x := by simp
      obtain ⟨j, m, hj, hm, hid⟩ := h init.length x hx a ha
      rw [List.getElem?_append_left hj] at hm
      exact ⟨m, List.mem_reverse.2 (List.getElem?_mem hm), hid⟩
    · intro i n hi a ha
      have hlt : i < init.length := by
        by_contra hge
        rw [List.getElem?_eq_none (Nat.le_of_not_lt hge)] at hi
        cases hi
      have hi2 : (init ++ [x])[i]? = some n := by
        rw [List.getElem?_append_left hlt]; exact hi
      obtain ⟨j, m, hj, hm, hid⟩ := h i n hi2 a ha
      rw [List.getElem?_append_left (Nat.lt_trans hj hlt)] at hm
      exact ⟨j, m, hj, hm, hid⟩

/-- When the operand list has no repetition and every operand is the
identity of an earlier node, `erase_found` leaves nothing. -/
theorem erase_found_of_nodup (earlier : List Node) : ∀ deps : List NodeId,
    deps.Nodup → (∀ a ∈ deps, ∃ m ∈ earlier, m.id = a) → erase_found deps earlier = [] := by
  induction earlier with
  | nil =>
    intro deps _ h
    cases deps with
    | nil => rfl
    | cons a _ =>
      obtain ⟨m, hm, _⟩ := h a (List.mem_cons_self _ _)
      cases hm
  | cons t rest ih =>
    intro deps hnd h
    have h2 : erase_found deps (t :: rest) = erase_found (deps.erase t.id) rest := by
      simp [erase_found]
    rw [h2]
    apply ih _ (hnd.erase _)
    intro a ha
    rw [hnd.mem_erase_iff] at ha
    obtain ⟨m, hm, hid⟩ := h a ha.2
    rcases List.mem_cons.1 hm with rfl | hm
    · exact absurd hid.symm ha.1
    · exact ⟨m, hm, hid⟩

/-- The checker accepts every sequence with the order property in which no
node lists the same operand twice. -/
theorem validate_list_of_nodup_operands (nodes : List Node)
    (hargs : ∀ n ∈ nodes, n.arguments.Nodup) (h : operands_earlier nodes) :
    validate_list nodes = true := by
  have key : ∀ l : List Node, (∀ n ∈ l, n.arguments.Nodup) → operands_later l →
      validate_loop l true = true := by
    intro l
    induction l with
    | nil => intro _ _; rfl
    | cons n rest ih =>
      intro hnd hl
      rw [validate_loop]
      have hd := erase_found_of_nodup rest n.arguments (hnd n (List.mem_cons_self _ _)) hl.1
      simp only [hd, List.length_nil, gt_iff_lt, Nat.lt_irrefl, if_false]
      exact ih (fun m hm => hnd m (List.mem_cons_of_mem _ hm)) hl.2
  exact key nodes.reverse (fun n hn => hargs n (List.mem_reverse.1 hn))
    (operands_earlier_reverse nodes h)

/-- When a run of the loop that starts with the accumulator false ends with
it true, exactly one replacement was added, and its target is the last node
a rule was invoked on. -/
theorem sweep_last_invoked (l : List Node) : ∀ s : State, (sweep l false s).1 = true →
    ∃ p : Node × Node, (sweep l false s).2.replacements = s.replacements ++ [p] ∧
      (sweep l false s).2.invoked.getLast? = some p.1 := by
  induction l with
  | nil =>
    intro s h
    simp [sweep] at h
  | cons a rest ih =>
    intro s h
    by_cases hskip : (a.is_output || a.is_parameter) = true
    · have hstep : sweep (a :: rest) false s = sweep rest false s := by
        rw [sweep]; simp [hskip]
      rw [hstep] at h ⊢
      exact ih s h
    · cases hreg : ops_to_const_values a.kind with
      | none =>
        have hstep : sweep (a :: rest) false s = sweep rest false s := by
          rw [sweep]; simp [hskip, hreg]
        rw [hstep] at h ⊢
        exact ih s h
      | some rule =>
        have hstep : sweep (a :: rest) false s
            = sweep rest (invoke rule s a).1 (invoke rule s a).2 := by
          rw [sweep]; simp [hskip, hreg]
        rw [hstep] at h ⊢
        rcases registry_effect _ _ hreg { s with invoked := s.invoked ++ [a] } a with h1 | ⟨m, h1⟩
        · simp only [invoke, h1] at h ⊢
          exact ih _ h
        · simp only [invoke, h1]
          rw [sweep_true]
          exact ⟨(a, m), by simp [replace_node], by simp [replace_node]⟩

/-! ## The claims on the sort, the canonicalisation and the checker -/

/-- C11 (TopologicalSort modelled from the spec): on every acyclic graph
whose operand references resolve, for every root `r` of the graph and every
recursion budget above the rank of `r`, `process(r)` followed by
`get_sorted_list()` returns a sequence, and in it every operand of each node
occurs at a strictly earlier position than the node; the root is in it. -/
theorem C11_topological_order_valid (g : List Node) (rank : NodeId → Nat)
    (hacyc : acyclic_by rank g) (hres : operands_resolve g) (r : NodeId)
    (hr : (get_node g r).isSome = true) (fuel : Nat) (hfuel : rank r < fuel) :
    ∃ order, TopologicalSort.process g fuel r = Except.ok order ∧
      (∀ (i : Nat) (n : Node), order[i]? = some n →
        ∀ a ∈ n.arguments, ∃ (j : Nat) (m : Node), j < i ∧ order[j]? = some m ∧ m.id = a) ∧
      r ∈ order.map (fun n => n.id) := by
  obtain ⟨ext, h1, h2, h3⟩ :=
    visit_ok g rank hacyc hres fuel [] [] r hfuel (by simp) hr trivial
  refine ⟨ext, by simpa [TopologicalSort.process] using h1, ?_, by simpa using h2⟩
  exact operands_later_reverse ext (by simpa using h3)

/-- C11 at the graph of the test, root `r0` (identity 15), the identity of
a node serving as its rank: the sort returns a sequence with the order
property, and that sequence is `test_sorted_list`. -/
theorem C11_topological_order_valid_witness :
    (∃ order, TopologicalSort.process test_graph 16 15 = Except.ok order ∧
      (∀ (i : Nat) (n : Node), order[i]? = some n →
        ∀ a ∈ n.arguments, ∃ (j : Nat) (m : Node), j < i ∧ order[j]? = some m ∧ m.id = a) ∧
      15 ∈ order.map (fun n => n.id)) ∧
    TopologicalSort.process test_graph 16 15 = Except.ok test_sorted_list ∧
    test_sorted_list.map (fun n => n.id) = [0, 1, 10, 2, 11, 4, 13, 3, 12, 5, 14, 15] :=
  ⟨C11_topological_order_valid test_graph (fun v => v)
      (by unfold acyclic_by; decide) (by unfold operands_resolve; decide) 15 (by decide) 16
      (by decide),
   by rfl, by decide⟩

/-- C12, evaluated at the zero-rank constant holding 2 and the tested value
0: `canonicalize_constant` does not return the constant itself but a new
zero-rank constant holding 0; and at a constant of shape [4] it returns the
constant itself, no zero-rank constant is made.  The two cases are the other
way round than claimed. -/
theorem C12_canonicalize_constant_cases_swapped :
    canonicalize_constant 10 (Constant.create 1 ElementType.f32 [] [2]) 0
        = Constant.create 10 ElementType.f32 [] [0] ∧
      canonicalize_constant 10 (Constant.create 1 ElementType.f32 [] [2]) 0
        ≠ Constant.create 1 ElementType.f32 [] [2] ∧
      canonicalize_constant 10 (Constant.create 1 ElementType.f32 [4] [2, 2, 2, 2]) 0
        = Constant.create 1 ElementType.f32 [4] [2, 2, 2, 2] ∧
      (canonicalize_constant 10 (Constant.create 1 ElementType.f32 [4] [2, 2, 2, 2]) 0).shape
        = [4] := by
  decide

/-- C13: in one call of `run_on_function`, once the loop over a first part
of the order has ended with the accumulator true (a rule invocation has
returned true), the rest of the order changes neither the result nor the
state, the record of rule invocations included; when the sweep returns true
the target of its one replacement is the last node a rule was invoked on;
and one sweep makes at most one replacement. -/
theorem C13_sweep_stops_after_first_rewrite (f : Function) :
    (∀ l1 l2 : List Node, f.get_ordered_ops = l1 ++ l2 →
        (sweep l1 false (State.init f)).1 = true →
        run_on_function f = sweep l1 false (State.init f)) ∧
      ((run_on_function f).1 = true →
        ∃ p : Node × Node, (run_on_function f).2.replacements = [p] ∧
          (run_on_function f).2.invoked.getLast? = some p.1) ∧
      (run_on_function f).2.replacements.length ≤ 1 := by
  refine ⟨?_, ?_, ?_⟩
  · intro l1 l2 hl h1
    unfold run_on_function
    rw [hl, sweep_append, h1, sweep_true]
    exact Prod.ext h1.symm rfl
  · intro h
    obtain ⟨p, hp, hlast⟩ := sweep_last_invoked f.get_ordered_ops (State.init f) h
    exact ⟨p, by simpa [State.init] using hp, hlast⟩
  · obtain ⟨J, _, h | ⟨n, m, _, h⟩⟩ := sweep_false f.get_ordered_ops (State.init f)
    · have h2 : run_on_function f = (false, _) := h
      rw [h2]
      simp [State.init]
    · have h2 : run_on_function f = (true, _) := h
      rw [h2]
      simp [State.init, replace_node]

/-- C13 at `two_multiplies`: after the first four nodes of the order the
accumulator is true, and the whole sweep ends in the result and state
reached there. -/
theorem C13_sweep_stops_after_first_rewrite_witness :
    run_on_function two_multiplies
      = sweep (two_multiplies.get_ordered_ops.take 4) false (State.init two_multiplies) :=
  (C13_sweep_stops_after_first_rewrite two_multiplies).1
    (two_multiplies.get_ordered_ops.take 4) (two_multiplies.get_ordered_ops.drop 4)
    (by decide) (by decide)

/-- C14: when `validate_list(nodes)` returns true, every operand of the node
at a position `i` is the identity of the node at some position `j < i`. -/
theorem C14_validate_list_sound (nodes : List Node) (h : validate_list nodes = true) :
    ∀ (i : Nat) (n : Node), nodes[i]? = some n →
      ∀ a ∈ n.arguments, ∃ (j : Nat) (m : Node), j < i ∧ nodes[j]? = some m ∧ m.id = a :=
  operands_later_reverse nodes (validate_loop_true nodes.reverse h)

/-- C14 at the sorted sequence of the test graph, which `validate_list`
accepts. -/
theorem C14_validate_list_sound_witness :
    validate_list test_sorted_list = true ∧
      ∀ (i : Nat) (n : Node), test_sorted_list[i]? = some n →
        ∀ a ∈ n.arguments,
          ∃ (j : Nat) (m : Node), j < i ∧ test_sorted_list[j]? = some m ∧ m.id = a :=
  ⟨by decide, C14_validate_list_sound test_sorted_list (by decide)⟩

/-- C15, evaluated at the sequence `x`, `add(x, x)`: it has no duplicate,
every operand of every node occurs at a strictly earlier position, and
`validate_list` returns false: the one earlier occurrence of `x` erases only
one of the two entries of the operand list. -/
theorem C15_repeated_operand_rejected :
    double_operand_list.Nodup ∧ operands_earlier double_operand_list ∧
      erase_found [0, 0] [test_node 0 OpKind.Parameter []] = [0] ∧
      validate_list double_operand_list = false :=
  ⟨by decide,
   operands_later_reverse _ (by simp [double_operand_list, operands_later, test_node]),
   by decide, by decide⟩

end ngraph

